import Mathlib

/-!
Verification of the `lacrimosa` sequencer core (crates `cz-core` and `cz-io`)
against its natural-language specification.

The Rust sources are shallowly embedded below:
  * `CausalEvent` and its ordering  — `crates/cz-core/src/lib.rs`
  * `Cursor`                        — `crates/cz-io/src/cursor.rs`
  * `Journal`                       — `crates/cz-io/src/journal.rs`
  * the sequencer loop              — `crates/cz-io/src/event_loop.rs`
  * the IPC broadcast byte payload  — `crates/cz-io/src/ipc.rs`

Machine integers are modelled as `Nat` with explicit `% 2 ^ 64` where the
source relies on wrapping (`AtomicU64::fetch_add`).  The memory-mapped file
is modelled as a byte list; reads and writes of `CausalEvent` go through the
explicit little-endian `#[repr(C)]` layout the source relies on.
-/

set_option maxRecDepth 8192

/-- `MAX_PACKET_SIZE` from `event_loop.rs` (65535, the maximum UDP payload). -/
def MAX_PACKET_SIZE : Nat := 65535

/-- `PIPELINE_DEPTH` from `event_loop.rs`: concurrent receives kept in flight. -/
def PIPELINE_DEPTH : Nat := 16

/-- `INDEX_RING_SIZE` from `journal.rs`: 1 GiB. -/
def INDEX_RING_SIZE : Nat := 1024 * 1024 * 1024

/-- `DEFAULT_JOURNAL_SIZE` from `journal.rs`: 100 GiB. -/
def DEFAULT_JOURNAL_SIZE : Nat := 100 * 1024 * 1024 * 1024

/-- Modulus of a Rust `u64`; `AtomicU64::fetch_add` wraps at this bound. -/
def U64_MOD : Nat := 2 ^ 64

/-- `FLAG_CHECKPOINT` from `cz-core/src/lib.rs`. -/
def FLAG_CHECKPOINT : Nat := 0x1

-- =============================================================================
-- cz-core: the CausalEvent atom and its ordering
-- =============================================================================

/-- The 32-byte event atom of `cz-core/src/lib.rs`.  Field widths: `lamport_ts`
and `payload_offset` are `u64`, `node_id` is `u32`, `stream_id` and `flags` are
`u16`, `checksum` is `u32`; modelled as `Nat` with bounds stated where they
matter. -/
structure CausalEvent where
  lamport_ts : Nat
  node_id : Nat
  stream_id : Nat
  flags : Nat
  payload_offset : Nat
  checksum : Nat
  deriving DecidableEq, Repr

/-- Rust's `Ord::cmp` on an unsigned integer:
less / greater / equal by comparison. -/
def natCmp (a b : Nat) : Ordering :=
  if a < b then .lt else if b < a then .gt else .eq

/-- `impl Ord for CausalEvent` (`cz-core/src/lib.rs:74-83`): lexicographic
comparison of the tuple `(lamport_ts, node_id, stream_id)`; the remaining
fields are not consulted. -/
def CausalEvent.cmp (a b : CausalEvent) : Ordering :=
  (natCmp a.lamport_ts b.lamport_ts).then
    ((natCmp a.node_id b.node_id).then (natCmp a.stream_id b.stream_id))

/-- The ordering key triple of an atom. -/
def CausalEvent.key (a : CausalEvent) : Nat × Nat × Nat :=
  (a.lamport_ts, a.node_id, a.stream_id)

/-- `CausalEvent::new` (`cz-core/src/lib.rs:108-123`): `flags` is forced to 0. -/
def CausalEvent.new (lamport_ts node_id stream_id payload_offset checksum : Nat) :
    CausalEvent :=
  { lamport_ts := lamport_ts
    node_id := node_id
    stream_id := stream_id
    flags := 0
    payload_offset := payload_offset
    checksum := checksum }

/-- `CausalEvent::with_flags` (`cz-core/src/lib.rs:127-143`). -/
def CausalEvent.withFlags
    (lamport_ts node_id stream_id payload_offset checksum flags : Nat) :
    CausalEvent :=
  { lamport_ts := lamport_ts
    node_id := node_id
    stream_id := stream_id
    flags := flags
    payload_offset := payload_offset
    checksum := checksum }

/-- `CausalEvent::is_checkpoint` (`cz-core/src/lib.rs:147-149`). -/
def CausalEvent.isCheckpoint (a : CausalEvent) : Bool :=
  (a.flags &&& FLAG_CHECKPOINT) != 0

/-- `CausalEvent::size_bytes` — 32 with the `#[repr(C)]` layout. -/
def CausalEvent.sizeBytes : Nat := 32

-- =============================================================================
-- Byte-level layout: little-endian encoding used by the mmap copies
-- =============================================================================

/-- Little-endian byte encoding of `n` on `w` bytes (truncating above
`256 ^ w`, as a Rust store of a `w`-byte integer does). -/
def toLeBytes : Nat → Nat → List Nat
  | 0, _ => []
  | w + 1, n => n % 256 :: toLeBytes w (n / 256)

/-- Little-endian decoding of a byte list. -/
def fromLeBytes : List Nat → Nat
  | [] => 0
  | b :: bs => b + 256 * fromLeBytes bs

/-- The 32 bytes of a `CausalEvent` with the `#[repr(C)]` layout the journal
copies verbatim (offsets 0, 8, 12, 14, 16, 24, then 4 trailing pad bytes).
The pad bytes are written as zero; no field is decoded from them. -/
def CausalEvent.toBytes (e : CausalEvent) : List Nat :=
  toLeBytes 8 e.lamport_ts ++ (toLeBytes 4 e.node_id ++ (toLeBytes 2 e.stream_id ++
    (toLeBytes 2 e.flags ++ (toLeBytes 8 e.payload_offset ++ (toLeBytes 4 e.checksum ++
    [0, 0, 0, 0])))))

/-- Decoding 32 bytes as a `CausalEvent` (the `std::ptr::read` reinterpretation
on a little-endian host, field by field at the layout offsets). -/
def CausalEvent.ofBytes (bs : List Nat) : CausalEvent :=
  let r1 := bs.drop 8
  let r2 := r1.drop 4
  let r3 := r2.drop 2
  let r4 := r3.drop 2
  let r5 := r4.drop 8
  { lamport_ts := fromLeBytes (bs.take 8)
    node_id := fromLeBytes (r1.take 4)
    stream_id := fromLeBytes (r2.take 2)
    flags := fromLeBytes (r3.take 2)
    payload_offset := fromLeBytes (r4.take 8)
    checksum := fromLeBytes (r5.take 4) }

-- =============================================================================
-- cz-io/journal.rs: the memory-mapped journal
-- =============================================================================

/-- Replace the bytes of `l` at `[off, off + repl.length)` by `repl`
(the `copy_from_slice` into the mapped region). -/
def listSplice (l : List Nat) (off : Nat) (repl : List Nat) : List Nat :=
  l.take off ++ repl ++ l.drop (off + repl.length)

/-- The journal handle: the mapped file bytes and the recorded size. -/
structure Journal where
  mmap : List Nat
  size : Nat
  deriving DecidableEq, Repr

/-- The error type of `Journal::open`: only filesystem/mmap faults exist;
there is no size-validation variant in the source. -/
inductive JournalError where
  | ioFault
  deriving DecidableEq, Repr

/-- `Journal::open` (`journal.rs:52-73`): opens/creates the file, pre-allocates
it to `size` bytes (a fresh file maps as zeros) and maps it.  The success path
is modelled; the only failures in the source are filesystem faults from
`open`/`set_len`/`map_mut`.  No validation of `size` is performed. -/
def Journal.open (size : Nat) : Except JournalError Journal :=
  .ok { mmap := List.replicate size 0, size := size }

/-- `Journal::blob_capacity` (`journal.rs:109-111`): `size as usize -
INDEX_RING_SIZE`.  `none` models the debug-build underflow panic when
`size < INDEX_RING_SIZE` (in release the subtraction would wrap). -/
def Journal.blobCapacity (j : Journal) : Option Nat :=
  if INDEX_RING_SIZE ≤ j.size then some (j.size - INDEX_RING_SIZE) else none

/-- `Journal::write_event_at` (`journal.rs:118-127`): copy the 32 bytes of the
event into the map at `slot * 32`. -/
def Journal.writeEventAt (j : Journal) (slot : Nat) (e : CausalEvent) : Journal :=
  { j with mmap := listSplice j.mmap (slot * CausalEvent.sizeBytes) e.toBytes }

/-- `Journal::read_event_at` (`journal.rs:135-139`): reinterpret the 32 bytes
at `slot * 32` as a `CausalEvent`. -/
def Journal.readEventAt (j : Journal) (slot : Nat) : CausalEvent :=
  CausalEvent.ofBytes ((j.mmap.drop (slot * CausalEvent.sizeBytes)).take
    CausalEvent.sizeBytes)

/-- `INDEX_RING_CAPACITY` from `journal.rs`. -/
def INDEX_RING_CAPACITY : Nat := INDEX_RING_SIZE / CausalEvent.sizeBytes

-- =============================================================================
-- cz-io/cursor.rs: the ring-buffer cursor
-- =============================================================================

/-- The cursor of `cursor.rs`: head (write), tail (commit), capacity. -/
structure Cursor where
  head : Nat
  tail : Nat
  capacity : Nat
  deriving DecidableEq, Repr

/-- `Cursor::new` (`cursor.rs:35-42`): `none` models the `assert!` panic on
`capacity < 2`. -/
def Cursor.new (capacity : Nat) : Option Cursor :=
  if 2 ≤ capacity then some { head := 0, tail := 0, capacity := capacity }
  else none

/-- `Cursor::next_pos`. -/
def Cursor.nextPos (c : Cursor) (pos : Nat) : Nat :=
  (pos + 1) % c.capacity

/-- `Cursor::is_full`. -/
def Cursor.isFull (c : Cursor) : Bool :=
  c.nextPos c.head == c.tail

/-- `Cursor::is_empty`. -/
def Cursor.isEmptyRing (c : Cursor) : Bool :=
  c.head == c.tail

/-- `Cursor::len` (`cursor.rs:65-71`). -/
def Cursor.len (c : Cursor) : Nat :=
  if c.tail ≤ c.head then c.head - c.tail else c.capacity - c.tail + c.head

/-- `Cursor::advance_head` (`cursor.rs:96-103`), returning the claimed slot
(or `none` when full) together with the updated cursor. -/
def Cursor.advanceHead (c : Cursor) : Option Nat × Cursor :=
  if c.isFull then (none, c)
  else (some c.head, { c with head := c.nextPos c.head })

/-- `Cursor::advance_tail` (`cursor.rs:110-117`). -/
def Cursor.advanceTail (c : Cursor) : Option Nat × Cursor :=
  if c.isEmptyRing then (none, c)
  else (some c.tail, { c with tail := c.nextPos c.tail })

/-- A call in a producer/consumer interaction sequence. -/
inductive CursorOp where
  | head
  | tail
  deriving DecidableEq, Repr

/-- Apply one `advance_head` / `advance_tail` call (state part). -/
def Cursor.applyOp (c : Cursor) : CursorOp → Cursor
  | .head => c.advanceHead.2
  | .tail => c.advanceTail.2

/-- Apply a sequence of advance calls. -/
def Cursor.applyOps (c : Cursor) (ops : List CursorOp) : Cursor :=
  ops.foldl Cursor.applyOp c

-- =============================================================================
-- Checksums
-- =============================================================================

/-- One bit step of a reflected CRC-32: shift right, conditionally xor the
reversed polynomial. -/
def crcStep (poly crc : Nat) : Nat :=
  if crc % 2 = 1 then (crc / 2) ^^^ poly else crc / 2

/-- Feed one byte into a reflected CRC-32 state. -/
def crcUpdateByte (poly crc b : Nat) : Nat :=
  (crcStep poly)^[8] (crc ^^^ b)

/-- Reflected CRC-32 with reversed polynomial `poly`, initial value and final
xor `0xFFFFFFFF`. -/
def crcGeneric (poly : Nat) (data : List Nat) : Nat :=
  (data.foldl (crcUpdateByte poly) 0xFFFFFFFF) ^^^ 0xFFFFFFFF

/-- The checksum computed by the sequencer (`event_loop.rs:126-128`):
`crc32fast::Hasher` implements CRC-32/ISO-HDLC (the IEEE 802.3 polynomial
`0x04C11DB7`, reversed form `0xEDB88320`). -/
def crc32 (data : List Nat) : Nat := crcGeneric 0xEDB88320 data

/-- Modelled from the spec: CRC-32C, the Castagnoli polynomial `0x1EDC6F41`
(reversed form `0x82F63B78`), which §6.2 of the spec names as the payload
checksum.  Stated only to compare with `crc32` above; it does not appear in
the source. -/
def crc32c (data : List Nat) : Nat := crcGeneric 0x82F63B78 data

-- =============================================================================
-- cz-io/event_loop.rs: the sequencer loop
-- =============================================================================

/-- `usize::to_le_bytes` on the 64-bit targets this crate requires (io_uring
is Linux-only and the default 100 GiB mapping needs a 64-bit address space):
eight little-endian bytes. -/
def usizeToLeBytes (n : Nat) : List Nat := toLeBytes 8 n

/-- A completion delivered by the kernel ring: the correlation tag
(`user_data`), the result (negative = error, otherwise the received byte
count), and the datagram bytes the kernel deposited at the slot's blob
offset (`data.length` equals the result when non-negative). -/
structure Completion where
  tag : Nat
  result : Int
  data : List Nat
  deriving DecidableEq, Repr

/-- The state touched by `EventLoop::run`: the global atomics
(`LAMPORT_COUNTER`, `EVENTS_PROCESSED`, `BYTES_PROCESSED`), the cursor, the
journal bytes, the IPC messages broadcast so far, the rolling blob offset and
the per-slot in-flight offsets, plus the (observable) trace of committed
`(slot, atom)` pairs in commit order. -/
structure LoopState where
  lamportCounter : Nat
  eventsProcessed : Nat
  bytesProcessed : Nat
  cursor : Cursor
  journal : Journal
  ipcSent : List (List Nat)
  nextBlobOffset : Nat
  inflight : List Nat
  commits : List (Nat × CausalEvent)
  deriving DecidableEq, Repr

/-- `EventLoop::submit_recv` (`event_loop.rs:163-196`), offset part: returns
the claimed blob offset and the new `next_blob_offset`.  The source resets
`next_blob_offset` to 0 and recurses when the slice would overrun the blob
region; after one reset the recursion either succeeds or repeats the same
state forever, so fuel 2 is exact: `none` models the divergence that occurs
when the blob region is smaller than `MAX_PACKET_SIZE`. -/
def submitRecvAux : Nat → Nat → Nat → Option (Nat × Nat)
  | 0, _, _ => none
  | fuel + 1, next, blobLen =>
    if blobLen < next + MAX_PACKET_SIZE then submitRecvAux fuel 0 blobLen
    else some (next, next + MAX_PACKET_SIZE)

/-- The offset assignment of one `submit_recv` call. -/
def submitRecv (next blobLen : Nat) : Option (Nat × Nat) :=
  submitRecvAux 2 next blobLen

/-- `submit_recv` at the state level: record the claimed offset for `tag` and
advance the rolling blob offset. -/
def submitRecvState (blobLen : Nat) (s : LoopState) (tag : Nat) :
    Option LoopState :=
  match submitRecv s.nextBlobOffset blobLen with
  | none => none
  | some (off, next) =>
    some { s with inflight := s.inflight.set tag off, nextBlobOffset := next }

/-- Processing of one completion in the main cycle of `EventLoop::run`
(`event_loop.rs:106-158`): transient error → resubmit; short packet → drop,
resubmit; checksum mismatch → drop, resubmit; otherwise stamp the atom with
the fetched-and-incremented Lamport counter, advance the cursor head and, if
a slot was claimed, write the atom, bump the counters and broadcast the slot
index; in every case the pipeline slot is resubmitted. -/
def processCompletion (blobLen : Nat) (s : LoopState) (c : Completion) :
    Option LoopState :=
  if c.result < 0 then submitRecvState blobLen s c.tag
  else
    let bytes := c.result.toNat
    let offset := s.inflight.getD c.tag 0
    let s1 :=
      if CausalEvent.sizeBytes ≤ bytes then
        let event := CausalEvent.ofBytes (c.data.take CausalEvent.sizeBytes)
        let payload := c.data.drop CausalEvent.sizeBytes
        let computed := crc32 payload
        if computed = event.checksum then
          let ts := s.lamportCounter
          let s' := { s with lamportCounter := (s.lamportCounter + 1) % U64_MOD }
          let sequencedEvent :=
            CausalEvent.new ts event.node_id event.stream_id offset event.checksum
          match s'.cursor.advanceHead with
          | (some slot, cur') =>
            { s' with
              cursor := cur'
              journal := s'.journal.writeEventAt slot sequencedEvent
              eventsProcessed := (s'.eventsProcessed + 1) % U64_MOD
              bytesProcessed := (s'.bytesProcessed + bytes) % U64_MOD
              ipcSent := s'.ipcSent ++ [usizeToLeBytes slot]
              commits := s'.commits ++ [(slot, sequencedEvent)] }
          | (none, cur') => { s' with cursor := cur' }
        else s
      else s
    submitRecvState blobLen s1 c.tag

/-- Process a list of completions in order. -/
def processCompletions (blobLen : Nat) (s : LoopState) :
    List Completion → Option LoopState
  | [] => some s
  | c :: cs =>
    match processCompletion blobLen s c with
    | none => none
    | some s' => processCompletions blobLen s' cs

/-- The loop state as `EventLoop::run` begins, before the initial
submissions: counters zero, no commits, no IPC traffic, in-flight offsets
array zeroed. -/
def initState (j : Journal) (cur : Cursor) : LoopState :=
  { lamportCounter := 0
    eventsProcessed := 0
    bytesProcessed := 0
    cursor := cur
    journal := j
    ipcSent := []
    nextBlobOffset := 0
    inflight := List.replicate PIPELINE_DEPTH 0
    commits := [] }

/-- Submit receives for a list of tags in order. -/
def submitAll (blobLen : Nat) (s : LoopState) : List Nat → Option LoopState
  | [] => some s
  | t :: ts =>
    match submitRecvState blobLen s t with
    | none => none
    | some s' => submitAll blobLen s' ts

/-- The startup phase of `EventLoop::run` (`event_loop.rs:82-84`): fill the
pipeline with `PIPELINE_DEPTH` receive submissions, tags 0, 1, …, 15. -/
def startup (blobLen : Nat) (j : Journal) (cur : Cursor) : Option LoopState :=
  submitAll blobLen (initState j cur) (List.range PIPELINE_DEPTH)

/-- The committed atom constructed by the loop for completion `c` in state `s`. -/
def commitAtom (s : LoopState) (c : Completion) : CausalEvent :=
  CausalEvent.new s.lamportCounter
    (CausalEvent.ofBytes (c.data.take CausalEvent.sizeBytes)).node_id
    (CausalEvent.ofBytes (c.data.take CausalEvent.sizeBytes)).stream_id
    (s.inflight.getD c.tag 0)
    (CausalEvent.ofBytes (c.data.take CausalEvent.sizeBytes)).checksum


/-- The blob-offset invariant maintained by the loop: every in-flight offset
and every committed atom's `payload_offset` is a multiple of
`MAX_PACKET_SIZE` whose full slice fits in the blob region, and the rolling
offset is itself aligned. -/
def offsetsAligned (blobLen : Nat) (s : LoopState) : Prop :=
  (∀ off ∈ s.inflight, off % MAX_PACKET_SIZE = 0 ∧
    off + MAX_PACKET_SIZE ≤ blobLen) ∧
  s.nextBlobOffset % MAX_PACKET_SIZE = 0 ∧
  (∀ p ∈ s.commits, p.2.payload_offset % MAX_PACKET_SIZE = 0 ∧
    p.2.payload_offset + MAX_PACKET_SIZE ≤ blobLen)


-- =============================================================================
-- Concrete fixtures for witnesses and counterexamples
-- =============================================================================

/-- A blob region of 17 maximum-size slices: ample for a 16-deep pipeline. -/
def testBlobLen : Nat := 65535 * 17

/-- A small journal map (the model does not fix the map length; two slots
suffice for the concrete runs below). -/
def testJournal : Journal := { mmap := List.replicate 64 0, size := 64 }

/-- A fresh cursor of capacity 1024. -/
def testCursor : Cursor := { head := 0, tail := 0, capacity := 1024 }

/-- A minimal valid packet: the 32-byte wire header with `node_id = 7`,
`stream_id = 2`, checksum 0 — the CRC-32 of the empty payload is 0. -/
def validPacket : Completion :=
  { tag := 0, result := 32, data := (CausalEvent.new 0 7 2 0 0).toBytes }

/-- A 10-byte datagram: shorter than the 32-byte header. -/
def shortPacket : Completion :=
  { tag := 0, result := 10, data := List.replicate 10 0 }

/-- The payload of the spec's CRC-rejection scenario. -/
def crcPayload : List Nat := [0xDE, 0xAD, 0xBE, 0xEF, 0x01, 0x02, 0x03, 0x04]

/-- A packet whose header checksum is the CRC-32 (IEEE) of its payload —
exactly what the sequencer accepts. -/
def crcPacket : Completion :=
  { tag := 0, result := 40,
    data := (CausalEvent.new 0 1 0 0 (crc32 crcPayload)).toBytes ++ crcPayload }

/-- Startup followed by a batch of completions, on the fixtures above. -/
def runLoop (cs : List Completion) : Option LoopState :=
  (startup testBlobLen testJournal testCursor).bind
    (fun s₀ => processCompletions testBlobLen s₀ cs)

/-- The concrete state after the startup submissions on the fixtures. -/
def c1Start : LoopState :=
  (startup testBlobLen testJournal testCursor).getD
    (initState testJournal testCursor)

/-- The concrete state after two valid packets from startup. -/
def c1Final : LoopState :=
  (processCompletions testBlobLen c1Start [validPacket, validPacket]).getD
    (initState testJournal testCursor)

-- =============================================================================
-- Helper lemmas: little-endian encoding and the 32-byte layout
-- =============================================================================

theorem toLeBytes_length (w n : Nat) : (toLeBytes w n).length = w := by
  induction w generalizing n with
  | zero => rfl
  | succ w ih => simp [toLeBytes, ih]

theorem fromLeBytes_toLeBytes (w n : Nat) (h : n < 256 ^ w) :
    fromLeBytes (toLeBytes w n) = n := by
  induction w generalizing n with
  | zero =>
    simp [Nat.pow_zero, Nat.lt_one_iff] at h
    simp [toLeBytes, fromLeBytes, h]
  | succ w ih =>
    have hdiv : n / 256 < 256 ^ w := by
      rw [Nat.div_lt_iff_lt_mul (by norm_num)]
      calc n < 256 ^ (w + 1) := h
        _ = 256 ^ w * 256 := by ring
    simp [toLeBytes, fromLeBytes, ih _ hdiv]
    omega

theorem toBytes_length (e : CausalEvent) : e.toBytes.length = 32 := by
  simp [CausalEvent.toBytes, toLeBytes_length]

/-- Decoding the layout bytes of an atom recovers every field, provided each
field fits its declared machine width. -/
theorem ofBytes_toBytes (e : CausalEvent)
    (h1 : e.lamport_ts < 2 ^ 64) (h2 : e.node_id < 2 ^ 32)
    (h3 : e.stream_id < 2 ^ 16) (h4 : e.flags < 2 ^ 16)
    (h5 : e.payload_offset < 2 ^ 64) (h6 : e.checksum < 2 ^ 32) :
    CausalEvent.ofBytes e.toBytes = e := by
  have e1 : (256 : Nat) ^ 8 = 2 ^ 64 := by norm_num
  have e2 : (256 : Nat) ^ 4 = 2 ^ 32 := by norm_num
  have e3 : (256 : Nat) ^ 2 = 2 ^ 16 := by norm_num
  simp only [CausalEvent.ofBytes, CausalEvent.toBytes]
  rw [List.take_left' (toLeBytes_length 8 _), List.drop_left' (toLeBytes_length 8 _),
    List.take_left' (toLeBytes_length 4 _), List.drop_left' (toLeBytes_length 4 _),
    List.take_left' (toLeBytes_length 2 _), List.drop_left' (toLeBytes_length 2 _),
    List.take_left' (toLeBytes_length 2 _), List.drop_left' (toLeBytes_length 2 _),
    List.take_left' (toLeBytes_length 8 _), List.drop_left' (toLeBytes_length 8 _),
    List.take_left' (toLeBytes_length 4 _)]
  rw [fromLeBytes_toLeBytes 8 _ (by rw [e1]; exact h1),
    fromLeBytes_toLeBytes 4 _ (by rw [e2]; exact h2),
    fromLeBytes_toLeBytes 2 _ (by rw [e3]; exact h3),
    fromLeBytes_toLeBytes 2 _ (by rw [e3]; exact h4),
    fromLeBytes_toLeBytes 8 _ (by rw [e1]; exact h5),
    fromLeBytes_toLeBytes 4 _ (by rw [e2]; exact h6)]

/-- Reading back the spliced range recovers the replacement bytes. -/
theorem listSplice_extract (l : List Nat) (off : Nat) (r : List Nat)
    (h : off ≤ l.length) :
    ((listSplice l off r).drop off).take r.length = r := by
  have htl : (l.take off).length = off := by
    simp [List.length_take, Nat.min_eq_left h]
  unfold listSplice
  rw [List.append_assoc, List.drop_left' htl, List.take_left' rfl]

-- =============================================================================
-- Helper lemmas: the ordering
-- =============================================================================

theorem cmp_eq_iff (a b : CausalEvent) :
    CausalEvent.cmp a b = .eq ↔ a.key = b.key := by
  unfold CausalEvent.cmp natCmp CausalEvent.key
  split_ifs <;> simp [Ordering.then] <;> omega

theorem cmp_lt_iff (a b : CausalEvent) :
    CausalEvent.cmp a b = .lt ↔
      (a.lamport_ts < b.lamport_ts ∨
        (a.lamport_ts = b.lamport_ts ∧
          (a.node_id < b.node_id ∨
            (a.node_id = b.node_id ∧ a.stream_id < b.stream_id)))) := by
  unfold CausalEvent.cmp natCmp
  split_ifs <;> simp [Ordering.then] <;> omega

theorem cmp_gt_iff (a b : CausalEvent) :
    CausalEvent.cmp a b = .gt ↔
      (b.lamport_ts < a.lamport_ts ∨
        (b.lamport_ts = a.lamport_ts ∧
          (b.node_id < a.node_id ∨
            (b.node_id = a.node_id ∧ b.stream_id < a.stream_id)))) := by
  unfold CausalEvent.cmp natCmp
  split_ifs <;> simp [Ordering.then] <;> omega

-- =============================================================================
-- Claim C7: the ordering is a total order on the key triple
-- =============================================================================

/-- C7: `CausalEvent.cmp` is determined solely by the lexicographic triple
`(lamport_ts, node_id, stream_id)`: it is reflexive, antisymmetric (equality
in the ordering sense identifies the key triples), transitive, and total,
and any two atoms sharing the key triple — whatever their `payload_offset`,
`checksum`, `flags` or padding — compare `Equal`. -/
theorem causal_order_total (a b c : CausalEvent) :
    CausalEvent.cmp a a = .eq ∧
    (CausalEvent.cmp a b = .eq → CausalEvent.cmp b a = .eq ∧ a.key = b.key) ∧
    (CausalEvent.cmp a b ≠ .gt → CausalEvent.cmp b c ≠ .gt →
      CausalEvent.cmp a c ≠ .gt) ∧
    (CausalEvent.cmp a b = .lt ∨ CausalEvent.cmp a b = .eq ∨
      CausalEvent.cmp a b = .gt) ∧
    (a.key = b.key → CausalEvent.cmp a b = .eq) := by
  refine ⟨?_, ?_, ?_, ?_, ?_⟩
  · exact (cmp_eq_iff a a).mpr rfl
  · intro h
    have hk := (cmp_eq_iff a b).mp h
    exact ⟨(cmp_eq_iff b a).mpr hk.symm, hk⟩
  · intro hab hbc hac
    rw [cmp_gt_iff] at hac
    cases h1 : CausalEvent.cmp a b with
    | gt => exact hab h1
    | lt =>
      cases h2 : CausalEvent.cmp b c with
      | gt => exact hbc h2
      | lt =>
        rw [cmp_lt_iff] at h1 h2
        omega
      | eq =>
        rw [cmp_lt_iff] at h1
        rw [cmp_eq_iff] at h2
        simp [CausalEvent.key, Prod.ext_iff] at h2
        omega
    | eq =>
      cases h2 : CausalEvent.cmp b c with
      | gt => exact hbc h2
      | lt =>
        rw [cmp_eq_iff] at h1
        rw [cmp_lt_iff] at h2
        simp [CausalEvent.key, Prod.ext_iff] at h1
        omega
      | eq =>
        rw [cmp_eq_iff] at h1 h2
        simp [CausalEvent.key, Prod.ext_iff] at h1 h2
        omega
  · cases h : CausalEvent.cmp a b with
    | lt => exact Or.inl rfl
    | eq => exact Or.inr (Or.inl rfl)
    | gt => exact Or.inr (Or.inr rfl)
  · exact (cmp_eq_iff a b).mpr

/-- Witness for C7 at the spec's literal scenario atoms
`A = (5,3,7,off=100,cs=0xBEEF)` and `B = (5,3,7,off=200,cs=0xCAFE)`. -/
theorem causal_order_total_witness :
    CausalEvent.cmp (CausalEvent.new 5 3 7 100 0xBEEF)
        (CausalEvent.new 5 3 7 200 0xCAFE) = .eq ∧
    (CausalEvent.new 5 3 7 100 0xBEEF).key =
        (CausalEvent.new 5 3 7 200 0xCAFE).key := by
  have h := causal_order_total (CausalEvent.new 5 3 7 100 0xBEEF)
    (CausalEvent.new 5 3 7 200 0xCAFE) (CausalEvent.new 2 0 0 0 0)
  refine ⟨h.2.2.2.2 (by decide), (h.2.1 (h.2.2.2.2 (by decide))).2⟩

-- =============================================================================
-- Claim C6: advance_head / advance_tail semantics and the capacity-3 trace
-- =============================================================================

/-- C6: for a cursor of capacity ≥ 2, `advance_head` returns `none` exactly
when `(head + 1) % capacity = tail`, and otherwise yields the previous head
and advances head modulo capacity; `advance_tail` is symmetric with the
`head = tail` empty test; a full in-bounds cursor holds at most
`capacity - 1` items; and the literal capacity-3 trace of the spec holds. -/
theorem cursor_advance_semantics (c : Cursor) (h2 : 2 ≤ c.capacity) :
    (c.advanceHead.1 = none ↔ (c.head + 1) % c.capacity = c.tail) ∧
    ((c.head + 1) % c.capacity ≠ c.tail →
      c.advanceHead = (some c.head, { c with head := (c.head + 1) % c.capacity })) ∧
    (c.advanceTail.1 = none ↔ c.head = c.tail) ∧
    (c.head ≠ c.tail →
      c.advanceTail = (some c.tail, { c with tail := (c.tail + 1) % c.capacity })) ∧
    (c.head < c.capacity → c.tail < c.capacity → c.len ≤ c.capacity - 1) ∧
    (∀ c₀, Cursor.new 3 = some c₀ →
      c₀.advanceHead.1 = some 0 ∧
      c₀.advanceHead.2.advanceHead.1 = some 1 ∧
      c₀.advanceHead.2.advanceHead.2.advanceHead.1 = none ∧
      c₀.advanceHead.2.advanceHead.2.advanceTail.1 = some 0 ∧
      c₀.advanceHead.2.advanceHead.2.advanceTail.2.advanceHead.1 = some 2 ∧
      c₀.advanceHead.2.advanceHead.2.advanceTail.2.advanceHead.2.advanceHead.1 =
        none) := by
  refine ⟨?_, ?_, ?_, ?_, ?_, ?_⟩
  · unfold Cursor.advanceHead Cursor.isFull Cursor.nextPos
    split_ifs with h <;> simp_all
  · intro h
    unfold Cursor.advanceHead Cursor.isFull Cursor.nextPos
    split_ifs with hf
    · simp at hf
      exact absurd hf h
    · rfl
  · unfold Cursor.advanceTail Cursor.isEmptyRing
    split_ifs with h <;> simp_all
  · intro h
    unfold Cursor.advanceTail Cursor.isEmptyRing Cursor.nextPos
    split_ifs with hf
    · simp at hf
      exact absurd hf h
    · rfl
  · intro hh ht
    unfold Cursor.len
    split_ifs <;> omega
  · intro c₀ h₀
    have : c₀ = { head := 0, tail := 0, capacity := 3 } := by
      simpa [Cursor.new] using h₀.symm
    subst this
    decide

/-- Witness for C6 at a concrete capacity-4 cursor (head 1, tail 3). -/
theorem cursor_advance_semantics_witness :
    ({ head := 1, tail := 3, capacity := 4 : Cursor }.advanceHead.1 = none ↔
      (1 + 1) % 4 = 3) ∧
    ({ head := 1, tail := 3, capacity := 4 : Cursor }.advanceTail.1 = none ↔
      (1 : Nat) = 3) := by
  have h := cursor_advance_semantics { head := 1, tail := 3, capacity := 4 }
    (by decide)
  exact ⟨h.1, h.2.2.1⟩

-- =============================================================================
-- Claim C9: length formula and bound along every interaction sequence
-- =============================================================================

theorem applyOp_bounds (c : Cursor) (op : CursorOp)
    (h0 : 0 < c.capacity) (hh : c.head < c.capacity) (ht : c.tail < c.capacity) :
    (c.applyOp op).capacity = c.capacity ∧ (c.applyOp op).head < c.capacity ∧
      (c.applyOp op).tail < c.capacity := by
  cases op <;>
    simp only [Cursor.applyOp, Cursor.advanceHead, Cursor.advanceTail,
      Cursor.isFull, Cursor.isEmptyRing, Cursor.nextPos] <;>
    split_ifs <;> simp_all <;> exact Nat.mod_lt _ h0

theorem applyOps_bounds (ops : List CursorOp) (c : Cursor)
    (h0 : 0 < c.capacity) (hh : c.head < c.capacity) (ht : c.tail < c.capacity) :
    (c.applyOps ops).capacity = c.capacity ∧ (c.applyOps ops).head < c.capacity ∧
      (c.applyOps ops).tail < c.capacity := by
  induction ops generalizing c with
  | nil => exact ⟨rfl, hh, ht⟩
  | cons op ops ih =>
    have h := applyOp_bounds c op h0 hh ht
    have h0' : 0 < (c.applyOp op).capacity := by rw [h.1]; exact h0
    have hh' : (c.applyOp op).head < (c.applyOp op).capacity := by
      rw [h.1]; exact h.2.1
    have ht' : (c.applyOp op).tail < (c.applyOp op).capacity := by
      rw [h.1]; exact h.2.2
    have hrec := ih (c.applyOp op) h0' hh' ht'
    rw [h.1] at hrec
    simpa [Cursor.applyOps, List.foldl] using hrec

theorem len_formula (c : Cursor) (h0 : 0 < c.capacity)
    (hh : c.head < c.capacity) (ht : c.tail < c.capacity) :
    c.len = (c.head + c.capacity - c.tail) % c.capacity ∧
      c.len ≤ c.capacity - 1 := by
  unfold Cursor.len
  split_ifs with hle
  · have h1 : c.head + c.capacity - c.tail = c.head - c.tail + c.capacity := by
      omega
    rw [h1, Nat.add_mod_right, Nat.mod_eq_of_lt (by omega)]
    omega
  · rw [Nat.mod_eq_of_lt (by omega)]
    omega

/-- C9: starting from a fresh cursor of capacity ≥ 2 (as `Cursor::new`
constructs it), after any sequence of `advance_head` / `advance_tail` calls
the length equals `(head - tail + capacity) % capacity` and satisfies
`0 ≤ len ≤ capacity - 1`. -/
theorem cursor_len_invariant (cap : Nat) (c₀ : Cursor) (ops : List CursorOp)
    (hnew : Cursor.new cap = some c₀) :
    (c₀.applyOps ops).len =
      ((c₀.applyOps ops).head + (c₀.applyOps ops).capacity -
        (c₀.applyOps ops).tail) % (c₀.applyOps ops).capacity ∧
    (c₀.applyOps ops).len ≤ (c₀.applyOps ops).capacity - 1 := by
  have hc : 2 ≤ cap ∧ c₀ = { head := 0, tail := 0, capacity := cap } := by
    unfold Cursor.new at hnew
    split_ifs at hnew with h
    exact ⟨h, by simpa using hnew.symm⟩
  obtain ⟨h2, rfl⟩ := hc
  have h0 : (0 : Nat) < cap := by omega
  have hb := applyOps_bounds ops { head := 0, tail := 0, capacity := cap }
    h0 h0 h0
  obtain ⟨hcap, hh, ht⟩ := hb
  refine len_formula _ ?_ ?_ ?_
  · rw [hcap]; exact h0
  · rw [hcap]; exact hh
  · rw [hcap]; exact ht

/-- Witness for C9: capacity 3, the ops sequence of the spec's wrap trace. -/
theorem cursor_len_invariant_witness :
    (({ head := 0, tail := 0, capacity := 3 : Cursor }).applyOps
        [.head, .head, .tail, .head]).len =
      ((({ head := 0, tail := 0, capacity := 3 : Cursor }).applyOps
        [.head, .head, .tail, .head]).head + 3 -
        (({ head := 0, tail := 0, capacity := 3 : Cursor }).applyOps
        [.head, .head, .tail, .head]).tail) % 3 := by
  have h := cursor_len_invariant 3 { head := 0, tail := 0, capacity := 3 }
    [.head, .head, .tail, .head] (by decide)
  exact h.1

-- =============================================================================
-- Claim C8: journal write/read round trip
-- =============================================================================

/-- C8: for any atom (fields within their machine widths) and any slot
`s < INDEX_RING_CAPACITY` whose 32 bytes lie inside the mapped file,
`read_event_at s` immediately after `write_event_at s` returns an atom whose
every field equals the corresponding field of the written atom. -/
theorem journal_round_trip (j : Journal) (s : Nat) (e : CausalEvent)
    (hs : s < INDEX_RING_CAPACITY)
    (hlen : s * 32 + 32 ≤ j.mmap.length)
    (h1 : e.lamport_ts < 2 ^ 64) (h2 : e.node_id < 2 ^ 32)
    (h3 : e.stream_id < 2 ^ 16) (h4 : e.flags < 2 ^ 16)
    (h5 : e.payload_offset < 2 ^ 64) (h6 : e.checksum < 2 ^ 32) :
    (j.writeEventAt s e).readEventAt s = e := by
  unfold Journal.readEventAt Journal.writeEventAt
  simp only [CausalEvent.sizeBytes]
  have hext := listSplice_extract j.mmap (s * 32) e.toBytes (by omega)
  rw [toBytes_length] at hext
  rw [hext]
  exact ofBytes_toBytes e h1 h2 h3 h4 h5 h6

/-- Witness for C8: slot 1 of a 64-byte map, an atom with every field set. -/
theorem journal_round_trip_witness :
    (({ mmap := List.replicate 64 0, size := 64 : Journal }).writeEventAt 1
      { lamport_ts := 5, node_id := 3, stream_id := 7, flags := 1,
        payload_offset := 100, checksum := 0xBEEF }).readEventAt 1 =
    { lamport_ts := 5, node_id := 3, stream_id := 7, flags := 1,
      payload_offset := 100, checksum := 0xBEEF } := by
  exact journal_round_trip _ 1 _ (by norm_num [INDEX_RING_CAPACITY,
    INDEX_RING_SIZE, CausalEvent.sizeBytes]) (by simp) (by norm_num)
    (by norm_num) (by norm_num) (by norm_num) (by norm_num) (by norm_num)

-- =============================================================================
-- Claim C5: construction-time validation (corrected)
-- =============================================================================

/-- C5 (counterexample): `Journal::open` does NOT reject a requested size
smaller than the index ring: opening with size 0 (0 < `INDEX_RING_SIZE`)
succeeds, and on the resulting handle `blob_capacity` underflows (`none`),
so the failure is deferred to steady state rather than construction. -/
theorem journal_open_no_size_check :
    Journal.open 0 = .ok { mmap := [], size := 0 } ∧
    (0 : Nat) < INDEX_RING_SIZE ∧
    Journal.blobCapacity { mmap := [], size := 0 } = none := by
  refine ⟨rfl, by norm_num [INDEX_RING_SIZE], ?_⟩
  simp [Journal.blobCapacity, INDEX_RING_SIZE]

/-- C5 (amended): `Cursor::new` rejects (panics on) exactly the capacities
below 2; `Journal::open`, however, performs no size validation at all — it
succeeds for every requested size, including sizes smaller than the index
ring, and such a journal only fails later (e.g. `blob_capacity` underflows). -/
theorem construction_validation (cap size : Nat) :
    (Cursor.new cap = none ↔ cap < 2) ∧
    (∃ j, Journal.open size = .ok j ∧ j.size = size ∧
      (size < INDEX_RING_SIZE → j.blobCapacity = none)) := by
  constructor
  · unfold Cursor.new
    split_ifs with h <;> simp <;> omega
  · refine ⟨{ mmap := List.replicate size 0, size := size }, rfl, rfl, ?_⟩
    intro hsize
    simp only [Journal.blobCapacity]
    split_ifs with h
    · omega
    · rfl

-- =============================================================================
-- Helper lemmas: the sequencer loop
-- =============================================================================

theorem submitRecv_eq (next blobLen : Nat) (hMAX : MAX_PACKET_SIZE ≤ blobLen) :
    submitRecv next blobLen =
      some (if blobLen < next + MAX_PACKET_SIZE then (0, MAX_PACKET_SIZE)
        else (next, next + MAX_PACKET_SIZE)) := by
  simp only [submitRecv, submitRecvAux]
  split_ifs with h1 h2
  · exact absurd h2 (by simp [MAX_PACKET_SIZE] at *; omega)
  · norm_num
  · rfl

theorem submitRecvState_eq (blobLen : Nat) (s : LoopState) (tag : Nat)
    (hMAX : MAX_PACKET_SIZE ≤ blobLen) :
    submitRecvState blobLen s tag =
      some { s with
        inflight := s.inflight.set tag
          (if blobLen < s.nextBlobOffset + MAX_PACKET_SIZE then 0
            else s.nextBlobOffset)
        nextBlobOffset :=
          if blobLen < s.nextBlobOffset + MAX_PACKET_SIZE then MAX_PACKET_SIZE
            else s.nextBlobOffset + MAX_PACKET_SIZE } := by
  unfold submitRecvState
  rw [submitRecv_eq _ _ hMAX]
  split_ifs <;> rfl

/-- Fields other than the in-flight offsets and the rolling blob offset are
untouched by a resubmission. -/
theorem submitRecvState_preserves (blobLen : Nat) (s s' : LoopState) (tag : Nat)
    (h : submitRecvState blobLen s tag = some s') :
    s'.lamportCounter = s.lamportCounter ∧
    s'.eventsProcessed = s.eventsProcessed ∧
    s'.bytesProcessed = s.bytesProcessed ∧
    s'.cursor = s.cursor ∧ s'.journal = s.journal ∧
    s'.ipcSent = s.ipcSent ∧ s'.commits = s.commits := by
  unfold submitRecvState at h
  cases hs : submitRecv s.nextBlobOffset blobLen with
  | none => rw [hs] at h; exact absurd h (by simp)
  | some p =>
    rw [hs] at h
    cases h
    exact ⟨rfl, rfl, rfl, rfl, rfl, rfl, rfl⟩

theorem advanceHead_not_full (c : Cursor) (h : c.isFull = false) :
    c.advanceHead = (some c.head, { c with head := c.nextPos c.head }) := by
  unfold Cursor.advanceHead
  rw [h]
  simp

theorem advanceHead_full (c : Cursor) (h : c.isFull = true) :
    c.advanceHead = (none, c) := by
  unfold Cursor.advanceHead
  rw [h]
  simp

theorem processCompletion_neg (blobLen : Nat) (s : LoopState) (c : Completion)
    (h : c.result < 0) :
    processCompletion blobLen s c = submitRecvState blobLen s c.tag := by
  unfold processCompletion
  rw [if_pos h]

theorem processCompletion_short (blobLen : Nat) (s : LoopState) (c : Completion)
    (hr : ¬c.result < 0) (hb : c.result.toNat < CausalEvent.sizeBytes) :
    processCompletion blobLen s c = submitRecvState blobLen s c.tag := by
  unfold processCompletion
  rw [if_neg hr]
  simp only []
  rw [if_neg (by omega : ¬CausalEvent.sizeBytes ≤ c.result.toNat)]

theorem processCompletion_badcrc (blobLen : Nat) (s : LoopState) (c : Completion)
    (hr : ¬c.result < 0) (hb : CausalEvent.sizeBytes ≤ c.result.toNat)
    (hcrc : crc32 (c.data.drop CausalEvent.sizeBytes) ≠
      (CausalEvent.ofBytes (c.data.take CausalEvent.sizeBytes)).checksum) :
    processCompletion blobLen s c = submitRecvState blobLen s c.tag := by
  unfold processCompletion
  rw [if_neg hr]
  simp only []
  rw [if_pos hb, if_neg hcrc]

theorem processCompletion_full (blobLen : Nat) (s : LoopState) (c : Completion)
    (hr : ¬c.result < 0) (hb : CausalEvent.sizeBytes ≤ c.result.toNat)
    (hcrc : crc32 (c.data.drop CausalEvent.sizeBytes) =
      (CausalEvent.ofBytes (c.data.take CausalEvent.sizeBytes)).checksum)
    (hfull : s.cursor.isFull = true) :
    processCompletion blobLen s c =
      submitRecvState blobLen
        { s with lamportCounter := (s.lamportCounter + 1) % U64_MOD } c.tag := by
  unfold processCompletion
  rw [if_neg hr]
  simp only []
  rw [if_pos hb, if_pos hcrc]
  have : ({ s with lamportCounter := (s.lamportCounter + 1) % U64_MOD } :
      LoopState).cursor.advanceHead =
      (none, { s with lamportCounter := (s.lamportCounter + 1) % U64_MOD }.cursor) :=
    advanceHead_full _ hfull
  rw [this]

theorem processCompletion_commit (blobLen : Nat) (s : LoopState) (c : Completion)
    (hr : ¬c.result < 0) (hb : CausalEvent.sizeBytes ≤ c.result.toNat)
    (hcrc : crc32 (c.data.drop CausalEvent.sizeBytes) =
      (CausalEvent.ofBytes (c.data.take CausalEvent.sizeBytes)).checksum)
    (hfull : s.cursor.isFull = false) :
    processCompletion blobLen s c =
      submitRecvState blobLen
        { s with
          lamportCounter := (s.lamportCounter + 1) % U64_MOD
          cursor := { s.cursor with head := s.cursor.nextPos s.cursor.head }
          journal := s.journal.writeEventAt s.cursor.head (commitAtom s c)
          eventsProcessed := (s.eventsProcessed + 1) % U64_MOD
          bytesProcessed := (s.bytesProcessed + c.result.toNat) % U64_MOD
          ipcSent := s.ipcSent ++ [usizeToLeBytes s.cursor.head]
          commits := s.commits ++ [(s.cursor.head, commitAtom s c)] }
        c.tag := by
  unfold processCompletion
  rw [if_neg hr]
  simp only []
  rw [if_pos hb, if_pos hcrc]
  have hadv : ({ s with lamportCounter := (s.lamportCounter + 1) % U64_MOD } :
      LoopState).cursor.advanceHead =
      (some s.cursor.head, { s.cursor with head := s.cursor.nextPos s.cursor.head }) :=
    advanceHead_not_full _ hfull
  rw [hadv]
  rfl

/-- Per-step trichotomy: a completion either leaves commits and the Lamport
counter alone (transient error, short packet, bad CRC), advances the counter
without a commit (ring full), or appends exactly one commit stamped with the
pre-step counter value and advances the counter. -/
theorem processCompletion_trichotomy (blobLen : Nat) (s : LoopState)
    (c : Completion) (s' : LoopState)
    (h : processCompletion blobLen s c = some s') :
    (s'.commits = s.commits ∧ s'.lamportCounter = s.lamportCounter) ∨
    (s'.commits = s.commits ∧
      s'.lamportCounter = (s.lamportCounter + 1) % U64_MOD) ∨
    (∃ slot ev, s'.commits = s.commits ++ [(slot, ev)] ∧
      ev.lamport_ts = s.lamportCounter ∧
      s'.lamportCounter = (s.lamportCounter + 1) % U64_MOD) := by
  by_cases hr : c.result < 0
  · rw [processCompletion_neg _ _ _ hr] at h
    have hp := submitRecvState_preserves _ _ _ _ h
    exact Or.inl ⟨hp.2.2.2.2.2.2, hp.1⟩
  · by_cases hb : CausalEvent.sizeBytes ≤ c.result.toNat
    · by_cases hcrc : crc32 (c.data.drop CausalEvent.sizeBytes) =
        (CausalEvent.ofBytes (c.data.take CausalEvent.sizeBytes)).checksum
      · cases hfull : s.cursor.isFull with
        | true =>
          rw [processCompletion_full _ _ _ hr hb hcrc hfull] at h
          have hp := submitRecvState_preserves _ _ _ _ h
          exact Or.inr (Or.inl ⟨hp.2.2.2.2.2.2, hp.1⟩)
        | false =>
          rw [processCompletion_commit _ _ _ hr hb hcrc hfull] at h
          have hp := submitRecvState_preserves _ _ _ _ h
          refine Or.inr (Or.inr ⟨s.cursor.head, commitAtom s c, ?_, rfl, hp.1⟩)
          exact hp.2.2.2.2.2.2
      · rw [processCompletion_badcrc _ _ _ hr hb hcrc] at h
        have hp := submitRecvState_preserves _ _ _ _ h
        exact Or.inl ⟨hp.2.2.2.2.2.2, hp.1⟩
    · rw [processCompletion_short _ _ _ hr (by omega)] at h
      have hp := submitRecvState_preserves _ _ _ _ h
      exact Or.inl ⟨hp.2.2.2.2.2.2, hp.1⟩

/-- At most one commit is appended per completion. -/
theorem processCompletions_commits_le (blobLen : Nat) (cs : List Completion)
    (s s' : LoopState) (h : processCompletions blobLen s cs = some s') :
    s'.commits.length ≤ s.commits.length + cs.length := by
  induction cs generalizing s with
  | nil =>
    cases h
    simp
  | cons c cs ih =>
    unfold processCompletions at h
    cases hstep : processCompletion blobLen s c with
    | none => rw [hstep] at h; exact absurd h (by simp)
    | some s₁ =>
      rw [hstep] at h
      have hlen : s₁.commits.length ≤ s.commits.length + 1 := by
        rcases processCompletion_trichotomy _ _ _ _ hstep with
          ⟨hc, _⟩ | ⟨hc, _⟩ | ⟨slot, ev, hc, _, _⟩ <;> rw [hc] <;> simp
      have := ih s₁ h
      simp only [List.length_cons]
      omega

/-- The startup submissions touch only the in-flight offsets and the rolling
blob offset. -/
theorem submitAll_preserves (blobLen : Nat) (ts : List Nat) (s s' : LoopState)
    (h : submitAll blobLen s ts = some s') :
    s'.lamportCounter = s.lamportCounter ∧
    s'.eventsProcessed = s.eventsProcessed ∧
    s'.bytesProcessed = s.bytesProcessed ∧
    s'.cursor = s.cursor ∧ s'.journal = s.journal ∧
    s'.ipcSent = s.ipcSent ∧ s'.commits = s.commits := by
  induction ts generalizing s with
  | nil =>
    cases h
    exact ⟨rfl, rfl, rfl, rfl, rfl, rfl, rfl⟩
  | cons t ts ih =>
    unfold submitAll at h
    cases hstep : submitRecvState blobLen s t with
    | none => rw [hstep] at h; exact absurd h (by simp)
    | some s₁ =>
      rw [hstep] at h
      have h1 := submitRecvState_preserves _ _ _ _ hstep
      have h2 := ih s₁ h
      exact ⟨h2.1.trans h1.1, h2.2.1.trans h1.2.1, h2.2.2.1.trans h1.2.2.1,
        h2.2.2.2.1.trans h1.2.2.2.1, h2.2.2.2.2.1.trans h1.2.2.2.2.1,
        h2.2.2.2.2.2.1.trans h1.2.2.2.2.2.1, h2.2.2.2.2.2.2.trans h1.2.2.2.2.2.2⟩

/-- When every completion of a run results in a commit, the appended commits
carry consecutive timestamps starting at the initial counter value. -/
theorem commits_consecutive (blobLen : Nat) (cs : List Completion)
    (s s' : LoopState) (h : processCompletions blobLen s cs = some s')
    (hall : s'.commits.length = s.commits.length + cs.length)
    (hnw : s.lamportCounter + cs.length < U64_MOD) :
    s'.commits.map (fun p => p.2.lamport_ts) =
      s.commits.map (fun p => p.2.lamport_ts) ++
        (List.range cs.length).map (fun k => s.lamportCounter + k) ∧
    s'.lamportCounter = s.lamportCounter + cs.length := by
  induction cs generalizing s with
  | nil =>
    cases h
    simp
  | cons c cs ih =>
    unfold processCompletions at h
    cases hstep : processCompletion blobLen s c with
    | none => rw [hstep] at h; exact absurd h (by simp)
    | some s₁ =>
      rw [hstep] at h
      have hbound := processCompletions_commits_le _ _ _ _ h
      rcases processCompletion_trichotomy _ _ _ _ hstep with
        ⟨hc, _⟩ | ⟨hc, _⟩ | ⟨slot, ev, hc, hts, hlc⟩
      · rw [hc] at hbound
        simp only [List.length_cons] at hall
        omega
      · rw [hc] at hbound
        simp only [List.length_cons] at hall
        omega
      · have hlc1 : s₁.lamportCounter = s.lamportCounter + 1 := by
          rw [hlc, Nat.mod_eq_of_lt (by simp only [List.length_cons] at hnw; omega)]
        have hall1 : s'.commits.length = s₁.commits.length + cs.length := by
          rw [hc]
          simp only [List.length_cons, List.length_append, List.length_cons,
            List.length_nil] at hall ⊢
          omega
        have hnw1 : s₁.lamportCounter + cs.length < U64_MOD := by
          rw [hlc1]
          simp only [List.length_cons] at hnw
          omega
        obtain ⟨hmap, hcount⟩ := ih s₁ h hall1 hnw1
        constructor
        · rw [hmap, hc, hlc1]
          simp only [List.map_append, List.map_cons, List.map_nil, List.length_cons,
            hts, List.append_assoc]
          congr 1
          rw [List.range_succ_eq_map]
          simp only [List.map_cons, List.map_map, Nat.add_zero, List.cons_append,
            List.nil_append]
          congr 1
          · exact List.map_congr_left (fun k _ => by simp [Function.comp]; omega)
        · rw [hcount, hlc1]
          simp only [List.length_cons]
          omega

-- =============================================================================
-- Claim C1: Lamport stamping of committed atoms (corrected)
-- =============================================================================

/-- C1 (counterexample): `LAMPORT_COUNTER.fetch_add(1)` returns the previous
counter value and the counter starts at 0, so the very first committed packet
after startup is stored at slot 0 with `lamport_ts = 0` — not 1 as claimed —
and the stored-atom invariant `lamport_ts > 0` fails on it. -/
theorem first_commit_lamport_zero :
    (runLoop [validPacket]).map
      (fun s' => (s'.commits.map (fun p => p.2.lamport_ts),
        (s'.journal.readEventAt 0).lamport_ts,
        (s'.journal.readEventAt 0).node_id,
        (s'.journal.readEventAt 0).stream_id)) = some ([0], 0, 7, 2) ∧
    (([0], (0 : Nat)) ≠ ([1], (1 : Nat))) := by
  exact ⟨by decide, by decide⟩

/-- C1 (amended): for every sequence of valid committed packets after
startup, the Nth committed atom carries `lamport_ts = N - 1`: the first
committed atom is stored with `lamport_ts = 0` and the timestamps of the
commits, in commit order, are exactly 0, 1, …, N−1 (strictly increasing). -/
theorem lamport_zero_based (blobLen : Nat) (j : Journal) (cur : Cursor)
    (cs : List Completion) (s₀ s' : LoopState)
    (hstart : startup blobLen j cur = some s₀)
    (hrun : processCompletions blobLen s₀ cs = some s')
    (hall : s'.commits.length = cs.length)
    (hnw : cs.length < U64_MOD) :
    s'.commits.map (fun p => p.2.lamport_ts) = List.range cs.length := by
  have hp := submitAll_preserves _ _ _ _ hstart
  have hc0 : s₀.commits = [] := by rw [hp.2.2.2.2.2.2]; rfl
  have hl0 : s₀.lamportCounter = 0 := by rw [hp.1]; rfl
  have h := commits_consecutive blobLen cs s₀ s' hrun
    (by rw [hc0, hall]; simp) (by rw [hl0]; simpa)
  rw [hc0, hl0] at h
  simpa using h.1

/-- Witness for C1 (amended): two valid packets from startup commit with
timestamps `[0, 1] = List.range 2`. -/
theorem lamport_zero_based_witness :
    startup testBlobLen testJournal testCursor = some c1Start ∧
    processCompletions testBlobLen c1Start [validPacket, validPacket] =
      some c1Final ∧
    c1Final.commits.map (fun p => p.2.lamport_ts) = List.range 2 := by
  have h1 : startup testBlobLen testJournal testCursor = some c1Start := by decide
  have h2 : processCompletions testBlobLen c1Start [validPacket, validPacket] =
      some c1Final := by decide
  exact ⟨h1, h2, lamport_zero_based testBlobLen testJournal testCursor
    [validPacket, validPacket] c1Start c1Final h1 h2 (by decide) (by decide)⟩

-- =============================================================================
-- Claim C2: the payload checksum algorithm (corrected)
-- =============================================================================

/-- C2 (counterexample): the sequencer commits a packet whose header checksum
equals the CRC-32 (IEEE, `crc32fast`) of its payload even though the CRC-32C
(Castagnoli) of that payload differs — so a packet is committed although the
computed CRC-32C does not equal the header checksum, refuting the claim that
the comparison is CRC-32C. -/
theorem committed_without_crc32c_match :
    (runLoop [crcPacket]).map (fun s' => s'.commits.length) = some 1 ∧
    crc32 crcPayload =
      (CausalEvent.ofBytes (crcPacket.data.take CausalEvent.sizeBytes)).checksum ∧
    crc32c crcPayload ≠ crc32 crcPayload := by
  exact ⟨by decide, by decide, by decide⟩

/-- C2 (amended): the payload checksum the sequencer computes over bytes
`[offset+32, offset+bytes)` is CRC-32 (ISO-HDLC / IEEE 802.3, the algorithm
of `crc32fast`), not CRC-32C; a packet with non-negative result is committed
exactly when it is at least 32 bytes long, the computed CRC-32 equals the
header checksum field, and the ring is not full. -/
theorem commit_iff_crc32_matches (blobLen : Nat) (s : LoopState)
    (c : Completion) (hMAX : MAX_PACKET_SIZE ≤ blobLen) (hr : 0 ≤ c.result) :
    ∃ s', processCompletion blobLen s c = some s' ∧
      (s'.commits.length = s.commits.length + 1 ↔
        (CausalEvent.sizeBytes ≤ c.result.toNat ∧
          crc32 (c.data.drop CausalEvent.sizeBytes) =
            (CausalEvent.ofBytes (c.data.take CausalEvent.sizeBytes)).checksum ∧
          s.cursor.isFull = false)) := by
  have hr' : ¬c.result < 0 := by omega
  by_cases hb : CausalEvent.sizeBytes ≤ c.result.toNat
  · by_cases hcrc : crc32 (c.data.drop CausalEvent.sizeBytes) =
      (CausalEvent.ofBytes (c.data.take CausalEvent.sizeBytes)).checksum
    · cases hfull : s.cursor.isFull with
      | false =>
        rw [processCompletion_commit _ _ _ hr' hb hcrc hfull,
          submitRecvState_eq _ _ _ hMAX]
        refine ⟨_, rfl, ?_⟩
        constructor
        · intro _
          exact ⟨hb, hcrc, rfl⟩
        · intro _
          simp

      | true =>
        rw [processCompletion_full _ _ _ hr' hb hcrc hfull,
          submitRecvState_eq _ _ _ hMAX]
        refine ⟨_, rfl, ?_⟩
        constructor
        · intro hlen
          simp at hlen
        · rintro ⟨_, _, hfull'⟩
          simp [hfull] at hfull'
    · rw [processCompletion_badcrc _ _ _ hr' hb hcrc,
        submitRecvState_eq _ _ _ hMAX]
      refine ⟨_, rfl, ?_⟩
      constructor
      · intro hlen
        simp at hlen
      · rintro ⟨_, hcrc', _⟩
        exact absurd hcrc' hcrc
  · rw [processCompletion_short _ _ _ hr' (by omega),
      submitRecvState_eq _ _ _ hMAX]
    refine ⟨_, rfl, ?_⟩
    constructor
    · intro hlen
      simp at hlen
    · rintro ⟨hb', _, _⟩
      exact absurd hb' hb

/-- Witness for C2 (amended) at the minimal valid packet in the fresh state. -/
theorem commit_iff_crc32_matches_witness :
    ∃ s', processCompletion testBlobLen (initState testJournal testCursor)
        validPacket = some s' ∧
      (s'.commits.length = (initState testJournal testCursor).commits.length + 1 ↔
        (CausalEvent.sizeBytes ≤ validPacket.result.toNat ∧
          crc32 (validPacket.data.drop CausalEvent.sizeBytes) =
            (CausalEvent.ofBytes
              (validPacket.data.take CausalEvent.sizeBytes)).checksum ∧
          (initState testJournal testCursor).cursor.isFull = false)) := by
  exact commit_iff_crc32_matches testBlobLen (initState testJournal testCursor)
    validPacket (by decide) (by decide)

-- =============================================================================
-- Claim C3: the IPC wakeup payload (code bug)
-- =============================================================================

/-- C3: the source comments (and the spec) say the broadcast payload is the
4-byte little-endian slot index, but `ring_slot` is a `usize`, so
`ring_slot.to_le_bytes()` emits 8 bytes on the 64-bit targets this crate
requires: the first commit after startup broadcasts `00`×8, not `00`×4. -/
theorem ipc_broadcast_eight_bytes :
    (runLoop [validPacket]).map (fun s' => s'.ipcSent) =
      some [[0, 0, 0, 0, 0, 0, 0, 0]] ∧
    (usizeToLeBytes 0).length = 8 ∧
    usizeToLeBytes 0 ≠ [0, 0, 0, 0] := by
  exact ⟨by decide, by decide, by decide⟩

-- =============================================================================
-- Claim C4: transient drops leave no partial state (corrected)
-- =============================================================================

/-- C4 (counterexample): after dropping a 10-byte short packet from startup,
every counter the module declares (`LAMPORT_COUNTER`, `EVENTS_PROCESSED`,
`BYTES_PROCESSED`) still reads 0 and nothing was committed or broadcast: the
source maintains no error counter, so no counter is incremented by one on a
drop, refuting that conjunct of the claim. -/
theorem drop_is_silent :
    (runLoop [shortPacket]).map
      (fun s' => (s'.commits.length, s'.eventsProcessed, s'.bytesProcessed,
        s'.lamportCounter, s'.ipcSent.length)) = some (0, 0, 0, 0, 0) := by
  decide

/-- C4 (amended): on any transient ingress drop — received length below 32,
checksum mismatch, or ring full — no partial state results: no atom is
written (journal unchanged), no commit is recorded, `events_processed` and
`bytes_processed` do not advance, no IPC wake is sent, the cursor is
unchanged, and the pipeline slot is resubmitted with a freshly claimed blob
offset.  No error counter exists in the source, so nothing is incremented on
the drop (though on a ring-full drop the Lamport counter has already
advanced before the drop). -/
theorem drop_no_partial_state (blobLen : Nat) (s : LoopState) (c : Completion)
    (hMAX : MAX_PACKET_SIZE ≤ blobLen) (hr : 0 ≤ c.result)
    (hdrop : c.result.toNat < CausalEvent.sizeBytes ∨
      (CausalEvent.sizeBytes ≤ c.result.toNat ∧
        crc32 (c.data.drop CausalEvent.sizeBytes) ≠
          (CausalEvent.ofBytes (c.data.take CausalEvent.sizeBytes)).checksum) ∨
      (CausalEvent.sizeBytes ≤ c.result.toNat ∧
        crc32 (c.data.drop CausalEvent.sizeBytes) =
          (CausalEvent.ofBytes (c.data.take CausalEvent.sizeBytes)).checksum ∧
        s.cursor.isFull = true)) :
    ∃ s', processCompletion blobLen s c = some s' ∧
      s'.commits = s.commits ∧ s'.journal = s.journal ∧
      s'.eventsProcessed = s.eventsProcessed ∧
      s'.bytesProcessed = s.bytesProcessed ∧
      s'.ipcSent = s.ipcSent ∧ s'.cursor = s.cursor ∧
      s'.inflight = s.inflight.set c.tag
        (if blobLen < s.nextBlobOffset + MAX_PACKET_SIZE then 0
          else s.nextBlobOffset) := by
  have hr' : ¬c.result < 0 := by omega
  rcases hdrop with hshort | ⟨hb, hcrc⟩ | ⟨hb, hcrc, hfull⟩
  · rw [processCompletion_short _ _ _ hr' hshort, submitRecvState_eq _ _ _ hMAX]
    exact ⟨_, rfl, rfl, rfl, rfl, rfl, rfl, rfl, rfl⟩
  · rw [processCompletion_badcrc _ _ _ hr' hb hcrc, submitRecvState_eq _ _ _ hMAX]
    exact ⟨_, rfl, rfl, rfl, rfl, rfl, rfl, rfl, rfl⟩
  · rw [processCompletion_full _ _ _ hr' hb hcrc hfull,
      submitRecvState_eq _ _ _ hMAX]
    exact ⟨_, rfl, rfl, rfl, rfl, rfl, rfl, rfl, rfl⟩

/-- Witness for C4 (amended): the 10-byte short packet in the fresh state. -/
theorem drop_no_partial_state_witness :
    ∃ s', processCompletion testBlobLen (initState testJournal testCursor)
        shortPacket = some s' ∧
      s'.commits = (initState testJournal testCursor).commits ∧
      s'.journal = (initState testJournal testCursor).journal ∧
      s'.eventsProcessed = (initState testJournal testCursor).eventsProcessed ∧
      s'.bytesProcessed = (initState testJournal testCursor).bytesProcessed ∧
      s'.ipcSent = (initState testJournal testCursor).ipcSent ∧
      s'.cursor = (initState testJournal testCursor).cursor ∧
      s'.inflight = (initState testJournal testCursor).inflight.set
        shortPacket.tag
        (if testBlobLen < (initState testJournal testCursor).nextBlobOffset +
            MAX_PACKET_SIZE then 0
          else (initState testJournal testCursor).nextBlobOffset) := by
  exact drop_no_partial_state testBlobLen (initState testJournal testCursor)
    shortPacket (by decide) (by decide) (Or.inl (by decide))

-- =============================================================================
-- Claim C10: blob offsets of committed atoms (alignment invariant)
-- =============================================================================

theorem getD_mem_or_eq (l : List Nat) (n d : Nat) :
    l.getD n d ∈ l ∨ l.getD n d = d := by
  rw [List.getD_eq_getElem?_getD]
  cases h : l[n]? with
  | none => right; rfl
  | some x => left; simpa using List.getElem?_mem h

/-- A resubmission preserves the offset invariant, given the pre-state's
inflight/next/commits components satisfy it. -/
theorem submitRecvState_aligned (blobLen : Nat) (s1 s' : LoopState) (tag : Nat)
    (hMAX : MAX_PACKET_SIZE ≤ blobLen)
    (h : submitRecvState blobLen s1 tag = some s')
    (hin : ∀ off ∈ s1.inflight, off % MAX_PACKET_SIZE = 0 ∧
      off + MAX_PACKET_SIZE ≤ blobLen)
    (hnext : s1.nextBlobOffset % MAX_PACKET_SIZE = 0)
    (hcom : ∀ p ∈ s1.commits, p.2.payload_offset % MAX_PACKET_SIZE = 0 ∧
      p.2.payload_offset + MAX_PACKET_SIZE ≤ blobLen) :
    offsetsAligned blobLen s' := by
  rw [submitRecvState_eq _ _ _ hMAX] at h
  cases h
  refine ⟨?_, ?_, ?_⟩
  · intro off hoff
    rcases List.mem_or_eq_of_mem_set hoff with hmem | heq
    · exact hin off hmem
    · split_ifs at heq with hwrap
      · subst heq
        exact ⟨by simp, hMAX⟩
      · subst heq
        exact ⟨hnext, by omega⟩
  · simp only []
    split_ifs with hwrap
    · simp
    · rw [Nat.add_mod_right]
      exact hnext
  · exact hcom

/-- One completion preserves the offset invariant. -/
theorem offsetsAligned_step (blobLen : Nat) (s s' : LoopState) (c : Completion)
    (hMAX : MAX_PACKET_SIZE ≤ blobLen)
    (hinv : offsetsAligned blobLen s)
    (h : processCompletion blobLen s c = some s') :
    offsetsAligned blobLen s' := by
  obtain ⟨hin, hnext, hcom⟩ := hinv
  have hoff : (s.inflight.getD c.tag 0) % MAX_PACKET_SIZE = 0 ∧
      (s.inflight.getD c.tag 0) + MAX_PACKET_SIZE ≤ blobLen := by
    rcases getD_mem_or_eq s.inflight c.tag 0 with hmem | heq
    · exact hin _ hmem
    · rw [heq]
      exact ⟨by simp, hMAX⟩
  by_cases hr : c.result < 0
  · rw [processCompletion_neg _ _ _ hr] at h
    exact submitRecvState_aligned _ _ _ _ hMAX h hin hnext hcom
  · by_cases hb : CausalEvent.sizeBytes ≤ c.result.toNat
    · by_cases hcrc : crc32 (c.data.drop CausalEvent.sizeBytes) =
        (CausalEvent.ofBytes (c.data.take CausalEvent.sizeBytes)).checksum
      · cases hfull : s.cursor.isFull with
        | true =>
          rw [processCompletion_full _ _ _ hr hb hcrc hfull] at h
          exact submitRecvState_aligned _ _ _ _ hMAX h hin hnext hcom
        | false =>
          rw [processCompletion_commit _ _ _ hr hb hcrc hfull] at h
          refine submitRecvState_aligned _ _ _ _ hMAX h hin hnext ?_
          intro p hp
          simp only [List.mem_append, List.mem_singleton] at hp
          rcases hp with hp | hp
          · exact hcom p hp
          · subst hp
            exact hoff
      · rw [processCompletion_badcrc _ _ _ hr hb hcrc] at h
        exact submitRecvState_aligned _ _ _ _ hMAX h hin hnext hcom
    · rw [processCompletion_short _ _ _ hr (by omega)] at h
      exact submitRecvState_aligned _ _ _ _ hMAX h hin hnext hcom

/-- A whole run preserves the offset invariant. -/
theorem offsetsAligned_run (blobLen : Nat) (cs : List Completion)
    (s s' : LoopState) (hMAX : MAX_PACKET_SIZE ≤ blobLen)
    (hinv : offsetsAligned blobLen s)
    (h : processCompletions blobLen s cs = some s') :
    offsetsAligned blobLen s' := by
  induction cs generalizing s with
  | nil =>
    cases h
    exact hinv
  | cons c cs ih =>
    unfold processCompletions at h
    cases hstep : processCompletion blobLen s c with
    | none => rw [hstep] at h; exact absurd h (by simp)
    | some s₁ =>
      rw [hstep] at h
      exact ih s₁ (offsetsAligned_step _ _ _ _ hMAX hinv hstep) h

/-- The startup submissions establish the offset invariant. -/
theorem startup_aligned (blobLen : Nat) (j : Journal) (cur : Cursor)
    (s₀ : LoopState) (hMAX : MAX_PACKET_SIZE ≤ blobLen)
    (h : startup blobLen j cur = some s₀) :
    offsetsAligned blobLen s₀ := by
  unfold startup at h
  have hinit : offsetsAligned blobLen (initState j cur) := by
    refine ⟨?_, by simp [initState], ?_⟩
    · intro off hoff
      rw [List.eq_of_mem_replicate hoff]
      exact ⟨by simp, hMAX⟩
    · intro p hp
      simp [initState] at hp
  generalize hts : List.range PIPELINE_DEPTH = ts at h
  clear hts
  generalize hs : initState j cur = s at hinit h
  clear hs
  induction ts generalizing s with
  | nil =>
    cases h
    exact hinit
  | cons t ts ih =>
    unfold submitAll at h
    cases hstep : submitRecvState blobLen s t with
    | none => rw [hstep] at h; exact absurd h (by simp)
    | some s₁ =>
      rw [hstep] at h
      exact ih s₁ (submitRecvState_aligned _ _ _ _ hMAX hstep hinit.1 hinit.2.1
        hinit.2.2) h

/-- Every completion — committed, dropped, or failed — ends in a
resubmission that advances the rolling blob offset by `MAX_PACKET_SIZE`,
wrapping to the start when the fresh slice would overrun the blob region. -/
theorem processCompletion_advances_offset (blobLen : Nat) (t t' : LoopState)
    (c : Completion) (hMAX : MAX_PACKET_SIZE ≤ blobLen)
    (h : processCompletion blobLen t c = some t') :
    t'.nextBlobOffset =
      if blobLen < t.nextBlobOffset + MAX_PACKET_SIZE then MAX_PACKET_SIZE
      else t.nextBlobOffset + MAX_PACKET_SIZE := by
  by_cases hr : c.result < 0
  · rw [processCompletion_neg _ _ _ hr, submitRecvState_eq _ _ _ hMAX] at h
    cases h
    rfl
  · by_cases hb : CausalEvent.sizeBytes ≤ c.result.toNat
    · by_cases hcrc : crc32 (c.data.drop CausalEvent.sizeBytes) =
        (CausalEvent.ofBytes (c.data.take CausalEvent.sizeBytes)).checksum
      · cases hfull : t.cursor.isFull with
        | true =>
          rw [processCompletion_full _ _ _ hr hb hcrc hfull,
            submitRecvState_eq _ _ _ hMAX] at h
          cases h
          rfl
        | false =>
          rw [processCompletion_commit _ _ _ hr hb hcrc hfull,
            submitRecvState_eq _ _ _ hMAX] at h
          cases h
          rfl
      · rw [processCompletion_badcrc _ _ _ hr hb hcrc,
          submitRecvState_eq _ _ _ hMAX] at h
        cases h
        rfl
    · rw [processCompletion_short _ _ _ hr (by omega),
        submitRecvState_eq _ _ _ hMAX] at h
      cases h
      rfl

/-- C10: from startup, every atom committed by the sequencer loop has a
`payload_offset` that is a multiple of `MAX_PACKET_SIZE` (65535) with
`payload_offset + MAX_PACKET_SIZE ≤ blobLen` (the blob capacity); and every
receive submission — also after a dropped or failed packet — claims the
current `next_blob_offset` slice and advances it by `MAX_PACKET_SIZE`,
wrapping to 0 whenever the slice would overrun the blob region. -/
theorem payload_offsets_invariant (blobLen : Nat) (j : Journal) (cur : Cursor)
    (cs : List Completion) (s₀ s' : LoopState)
    (hMAX : MAX_PACKET_SIZE ≤ blobLen)
    (hstart : startup blobLen j cur = some s₀)
    (hrun : processCompletions blobLen s₀ cs = some s') :
    (∀ p ∈ s'.commits, p.2.payload_offset % MAX_PACKET_SIZE = 0 ∧
      p.2.payload_offset + MAX_PACKET_SIZE ≤ blobLen) ∧
    (∀ next, submitRecv next blobLen =
      some (if blobLen < next + MAX_PACKET_SIZE then (0, MAX_PACKET_SIZE)
        else (next, next + MAX_PACKET_SIZE))) ∧
    (∀ t t' : LoopState, ∀ c : Completion,
      processCompletion blobLen t c = some t' →
      t'.nextBlobOffset =
        if blobLen < t.nextBlobOffset + MAX_PACKET_SIZE then MAX_PACKET_SIZE
        else t.nextBlobOffset + MAX_PACKET_SIZE) := by
  refine ⟨(offsetsAligned_run _ _ _ _ hMAX
    (startup_aligned _ _ _ _ hMAX hstart) hrun).2.2, ?_, ?_⟩
  · intro next
    exact submitRecv_eq _ _ hMAX
  · intro t t' c h
    exact processCompletion_advances_offset _ _ _ _ hMAX h

/-- Witness for C10: the first committed atom of the two-packet run has
`payload_offset = 0`, a multiple of `MAX_PACKET_SIZE` that fits the region. -/
theorem payload_offsets_invariant_witness :
    (CausalEvent.new 0 7 2 0 0).payload_offset % MAX_PACKET_SIZE = 0 ∧
    (CausalEvent.new 0 7 2 0 0).payload_offset + MAX_PACKET_SIZE ≤
      testBlobLen := by
  have h1 : startup testBlobLen testJournal testCursor = some c1Start := by
    decide
  have h2 : processCompletions testBlobLen c1Start [validPacket, validPacket] =
      some c1Final := by decide
  have h := payload_offsets_invariant testBlobLen testJournal testCursor
    [validPacket, validPacket] c1Start c1Final (by decide) h1 h2
  exact h.1 (0, CausalEvent.new 0 7 2 0 0) (by decide)
